import Mathlib

/-!
# Verification of the Chroma filter operator (`rust/worker/src/execution/operators/filter.rs`)

This file gives a shallow embedding of the query-predicate evaluation core of
the Chroma worker: the `SignedRoaringBitmap` symbolic set algebra, the
`MetadataLogReader` built from materialized logs, the two-variant
`MetadataProvider`, the recursive predicate evaluator over `Where` trees, and
the orchestrating `FilterOperator::run`, together with theorems checking the
specification's statements against the embedded code.

Bitmaps of 32-bit offset ids are modelled as `Finset ℕ`; asynchronous I/O
returning `Result` is modelled by pure functions and `Except`.
-/

namespace ChromaFilter

/-- A `RoaringBitmap` of u32 offset ids, modelled as a finite set of naturals. -/
abbrev Bitmap := Finset ℕ

/-- Modelled from the spec: `SignedRoaringBitmap` lives in `chroma_types`
(outside the sources at hand); §3 of the spec: exactly one of `Include(B)`
(the set is B) or `Exclude(B)` (the set is universe minus B). -/
inductive SignedRoaringBitmap where
  | Include (b : Bitmap)
  | Exclude (b : Bitmap)
deriving DecidableEq

namespace SignedRoaringBitmap

/-- Modelled from the spec (§4.1): `SignedRoaringBitmap::empty() = Include(∅)`. -/
def empty : SignedRoaringBitmap := .Include ∅

/-- Modelled from the spec (§4.1): `SignedRoaringBitmap::full() = Exclude(∅)`. -/
def full : SignedRoaringBitmap := .Exclude ∅

/-- Modelled from the spec (§4.1): intersection (`BitAnd`, the `&` operator)
on `SignedRoaringBitmap`. -/
def band : SignedRoaringBitmap → SignedRoaringBitmap → SignedRoaringBitmap
  | Include x, Include y => Include (x ∩ y)
  | Include x, Exclude y => Include (x \ y)
  | Exclude x, Include y => Include (y \ x)
  | Exclude x, Exclude y => Exclude (x ∪ y)

/-- Modelled from the spec (§4.1): union (`BitOr`, the `|` operator)
on `SignedRoaringBitmap`. -/
def bor : SignedRoaringBitmap → SignedRoaringBitmap → SignedRoaringBitmap
  | Include x, Include y => Include (x ∪ y)
  | Include x, Exclude y => Exclude (y \ x)
  | Exclude x, Include y => Exclude (x \ y)
  | Exclude x, Exclude y => Exclude (x ∩ y)

/-- Modelled from the spec (§4.1): complement swaps `Include` and `Exclude`
on the same bitmap. -/
def flip : SignedRoaringBitmap → SignedRoaringBitmap
  | Include x => Exclude x
  | Exclude x => Include x

/-- Denotation: whether offset `o` belongs to the symbolic set. -/
def mem (o : ℕ) : SignedRoaringBitmap → Prop
  | Include b => o ∈ b
  | Exclude b => o ∉ b

instance (o : ℕ) (s : SignedRoaringBitmap) : Decidable (mem o s) := by
  cases s with
  | Include b => exact inferInstanceAs (Decidable (o ∈ b))
  | Exclude b => exact inferInstanceAs (Decidable (o ∉ b))

@[simp] theorem mem_Include {o : ℕ} {b : Bitmap} : mem o (Include b) ↔ o ∈ b := Iff.rfl

@[simp] theorem mem_Exclude {o : ℕ} {b : Bitmap} : mem o (Exclude b) ↔ o ∉ b := Iff.rfl

@[simp] theorem mem_empty {o : ℕ} : ¬ mem o empty := by simp [empty, mem]

@[simp] theorem mem_full {o : ℕ} : mem o full := by simp [full, mem]

@[simp] theorem mem_band {o : ℕ} {a b : SignedRoaringBitmap} :
    mem o (band a b) ↔ mem o a ∧ mem o b := by
  cases a <;> cases b <;> (simp [band, mem]; try tauto)

@[simp] theorem mem_bor {o : ℕ} {a b : SignedRoaringBitmap} :
    mem o (bor a b) ↔ mem o a ∨ mem o b := by
  cases a <;> cases b <;> simp [bor, mem] <;> tauto

@[simp] theorem mem_flip {o : ℕ} {a : SignedRoaringBitmap} :
    mem o (flip a) ↔ ¬ mem o a := by
  cases a <;> simp [flip, mem]

theorem mem_foldl_band {o : ℕ} (l : List SignedRoaringBitmap)
    (init : SignedRoaringBitmap) :
    mem o (l.foldl band init) ↔ mem o init ∧ ∀ s ∈ l, mem o s := by
  induction l generalizing init with
  | nil => simp
  | cons hd tl ih =>
    simp only [List.foldl_cons, ih, mem_band, List.mem_cons]
    constructor
    · rintro ⟨⟨h1, h2⟩, h3⟩
      exact ⟨h1, fun s hs => hs.elim (fun he => he ▸ h2) (h3 s)⟩
    · rintro ⟨h1, h2⟩
      exact ⟨⟨h1, h2 hd (Or.inl rfl)⟩, fun s hs => h2 s (Or.inr hs)⟩

theorem mem_foldl_bor {o : ℕ} (l : List SignedRoaringBitmap)
    (init : SignedRoaringBitmap) :
    mem o (l.foldl bor init) ↔ mem o init ∨ ∃ s ∈ l, mem o s := by
  induction l generalizing init with
  | nil => simp
  | cons hd tl ih =>
    simp only [List.foldl_cons, ih, mem_bor, List.mem_cons]
    constructor
    · rintro (⟨h1 | h2⟩ | ⟨s, hs, h3⟩)
      · exact Or.inl h1
      · exact Or.inr ⟨hd, Or.inl rfl, h2⟩
      · exact Or.inr ⟨s, Or.inr hs, h3⟩
    · rintro (h1 | ⟨s, hs | hs, h3⟩)
      · exact Or.inl (Or.inl h1)
      · exact Or.inl (Or.inr (hs ▸ h3))
      · exact Or.inr ⟨s, hs, h3⟩

end SignedRoaringBitmap

/-- `chroma_types::MetadataValue`: a tagged union of boolean, signed 64-bit
integer, 64-bit float, and UTF-8 string. The float payload is modelled as an
exact rational; the segment-side `as f32` narrowing is modelled separately
(see `MetadataSegmentReader.narrow_f32`). -/
inductive MetadataValue where
  | Bool (b : Bool)
  | Int (i : ℤ)
  | Float (f : ℚ)
  | Str (s : String)
deriving DecidableEq

/-- Whether two metadata values carry the same variant tag. -/
def sameVariant : MetadataValue → MetadataValue → Bool
  | .Bool _, .Bool _ => true
  | .Int _, .Int _ => true
  | .Float _, .Float _ => true
  | .Str _, .Str _ => true
  | _, _ => false

/-- Modelled from the spec (§3, §4.3): strict ordering on `MetadataValue` is
defined within each variant, and "cross-variant comparisons never match";
"distinct variants for the same key coexist as independent ordered sub-maps".
The `Ord` instance of `chroma_types::MetadataValue` is outside the sources at
hand, so the per-variant order is taken from the spec's words. -/
def vlt : MetadataValue → MetadataValue → Bool
  | .Bool a, .Bool b => !a && b
  | .Int a, .Int b => decide (a < b)
  | .Float a, .Float b => decide (a < b)
  | .Str a, .Str b => decide (a < b)
  | _, _ => false

/-- Non-strict within-variant order: `a ≤ b` iff `a < b` or `a = b`. -/
def vle (a b : MetadataValue) : Bool :=
  vlt a b || a == b

/-- `chroma_types::PrimitiveOperator`. -/
inductive PrimitiveOperator where
  | Equal
  | NotEqual
  | GreaterThan
  | GreaterThanOrEqual
  | LessThan
  | LessThanOrEqual
deriving DecidableEq

/-- `chroma_types::SetOperator`. -/
inductive SetOperator where
  | In
  | NotIn
deriving DecidableEq

/-- `chroma_types::BooleanOperator`. -/
inductive BooleanOperator where
  | And
  | Or
deriving DecidableEq

/-- `chroma_types::DocumentOperator`. -/
inductive DocumentOperator where
  | Contains
  | NotContains
  | Regex
  | NotRegex
deriving DecidableEq

/-- `chroma_types::MaterializedLogOperation`. -/
inductive MaterializedLogOperation where
  | Initial
  | AddNew
  | UpdateExisting
  | OverwriteExisting
  | DeleteExisting
deriving DecidableEq

/-- Whether stored value `v` lies inside the range bounds that
`MetadataLogReader::get` constructs for query value `val` under `op`
(filter.rs lines 164-173); the `BTreeMap::range` scan over those bounds is
modelled as a filter with the per-variant order `vlt`/`vle`. The `NotEqual`
arm is `unreachable!` in the source (desugared at the evaluator), modelled as
an empty range. -/
def boundsContain (op : PrimitiveOperator) (val v : MetadataValue) : Bool :=
  match op with
  | .Equal => v == val
  | .GreaterThan => vlt val v
  | .GreaterThanOrEqual => vle val v
  | .LessThan => vlt v val
  | .LessThanOrEqual => vle v val
  | .NotEqual => false

/-- Look up `k` in an association list (models `HashMap::get` / `BTreeMap::get`). -/
def lookupAssoc {α β : Type} [DecidableEq α] : List (α × β) → α → Option β
  | [], _ => none
  | (k', v) :: rest, k => if k' = k then some v else lookupAssoc rest k

/-- Update an association list at key `k`, applying `f` to the present value,
or to the default `d` when the key is absent
(models `HashMap::entry(k).or_default()` followed by a mutation). -/
def updateAssoc {α β : Type} [DecidableEq α] (m : List (α × β)) (k : α) (d : β)
    (f : β → β) : List (α × β) :=
  match m with
  | [] => [(k, f d)]
  | (k', v) :: rest =>
    if k' = k then (k', f v) :: rest else (k', v) :: updateAssoc rest k d f

/-- Insert-or-overwrite in an association list (models `HashMap::insert`). -/
def setAssoc {α β : Type} [DecidableEq α] (m : List (α × β)) (k : α) (v : β) :
    List (α × β) :=
  updateAssoc m k v (fun _ => v)

/-- One entry of a `MaterializeLogsResult`, with the hydrated view inlined:
`get_operation()`, `get_offset_id()`, and after `hydrate` the `get_user_id()`,
`merged_metadata()` and `merged_document_ref()` results. Hydration I/O failure
is a `LogMaterializerError`, modelled at the `FilterOperator.run` boundary. -/
structure MaterializedLogEntry where
  operation : MaterializedLogOperation
  offset_id : ℕ
  user_id : String
  metadata : List (String × MetadataValue)
  document : Option String

/-- `MetadataLogReader` (filter.rs lines 99-110): the log-backed mirror of the
metadata segment. `HashMap`s and `BTreeMap`s are modelled as association
lists. -/
structure MetadataLogReader where
  compact_metadata : List (String × List (MetadataValue × Bitmap))
  document : List (ℕ × String)
  updated_offset_ids : Bitmap
  user_id_to_offset_id : List (String × ℕ)

namespace MetadataLogReader

/-- Processing of a single log entry inside `MetadataLogReader::create`
(filter.rs lines 123-149). -/
def step (r : MetadataLogReader) (log : MaterializedLogEntry) :
    MetadataLogReader :=
  let r1 :=
    if log.operation = .Initial ∨ log.operation = .AddNew then r
    else { r with updated_offset_ids := insert log.offset_id r.updated_offset_ids }
  if log.operation = .DeleteExisting then r1
  else
    let r2 := { r1 with
      user_id_to_offset_id := setAssoc r1.user_id_to_offset_id log.user_id log.offset_id }
    let r3 := { r2 with
      compact_metadata := log.metadata.foldl (fun cm kv =>
        updateAssoc cm kv.1 []
          (fun m => updateAssoc m kv.2 ∅ (fun b => insert log.offset_id b)))
        r2.compact_metadata }
    match log.document with
    | some doc => { r3 with document := setAssoc r3.document log.offset_id doc }
    | none => r3

/-- `MetadataLogReader::create` (filter.rs lines 113-156): a single pass over
the materialized log entries. -/
def create (logs : List MaterializedLogEntry) : MetadataLogReader :=
  logs.foldl step ⟨[], [], ∅, []⟩

/-- `MetadataLogReader::get` (filter.rs lines 157-181): range-scan the ordered
value map of `key` and union the offset bitmaps. -/
def get (r : MetadataLogReader) (key : String) (val : MetadataValue)
    (op : PrimitiveOperator) : Bitmap :=
  match lookupAssoc r.compact_metadata key with
  | some metadata_value_to_offset_ids =>
      ((metadata_value_to_offset_ids.filter
          (fun p => boundsContain op val p.1)).map Prod.snd).foldl (· ∪ ·) ∅
  | none => ∅

/-- `MetadataLogReader::search_user_ids` (filter.rs lines 183-188). -/
def search_user_ids (r : MetadataLogReader) (user_ids : List String) : Bitmap :=
  (user_ids.filterMap (fun id => lookupAssoc r.user_id_to_offset_id id)).toFinset

end MetadataLogReader

/-- Models Rust's `Option::is_some_and`. -/
def isSomeAnd {α : Type} (o : Option α) (p : α → Bool) : Bool :=
  match o with
  | some a => p a
  | none => false

/-- `chroma_types::regex::ChromaRegex` after successful parsing, modelled
abstractly: `look_set_is_empty` models `properties().look_set().is_empty()`
on the HIR, and `is_match` the compiled regex's match test. The
`ChromaRegexError` parse-failure path is not modelled; no claim concerns it. -/
structure ChromaRegex where
  look_set_is_empty : Bool
  is_match : String → Bool

/-- Modelled from the spec (§6): the full-text n-gram index reader of the
metadata segment (its implementation lives outside the sources at hand):
`search(substring) → bitmap`, `match_literal_expression(expr) → Option<bitmap>`
(`None` meaning "no filter possible"), `can_match_exactly(expr) → bool`. The
literal expression is derived from the regex HIR (`LiteralExpr::from(hir)`), so
both are modelled as functions of the regex. -/
structure FullTextIndexReader where
  search : String → Bitmap
  match_literal_expression : ChromaRegex → Option Bitmap
  can_match_exactly : ChromaRegex → Bool

/-- Modelled from the spec (§6): the record segment reader (implementation
outside the sources at hand). `records` is the offset-id-keyed record store in
stream order, each record reduced to its optional document;
`user_id_to_offset` models `get_offset_id_for_user_id`. -/
structure RecordSegmentReader where
  records : List (ℕ × Option String)
  user_id_to_offset : String → Option ℕ

namespace RecordSegmentReader

/-- `count()`. -/
def count (r : RecordSegmentReader) : ℕ := r.records.length

/-- `get_offset_stream(..)`. -/
def get_offset_stream (r : RecordSegmentReader) : List ℕ := r.records.map Prod.fst

/-- `get_data_stream(..)`. -/
def get_data_stream (r : RecordSegmentReader) : List (ℕ × Option String) := r.records

/-- `get_data_for_offset_id(id)`. -/
def get_data_for_offset_id (r : RecordSegmentReader) (id : ℕ) : Option (Option String) :=
  lookupAssoc r.records id

end RecordSegmentReader

/-- Modelled from the spec (§6): a typed metadata column index reader with
`get/gt/gte/lt/lte(key, kw) → bitmap`. -/
structure MetadataIndexReader (κ : Type) where
  get : String → κ → Bitmap
  gt : String → κ → Bitmap
  gte : String → κ → Bitmap
  lt : String → κ → Bitmap
  lte : String → κ → Bitmap

/-- `MetadataSegmentReader` as consumed by filter.rs: the four optional typed
column index readers and the optional full-text index reader. `narrow_f32`
models Rust's `*f as f32` narrowing cast applied before querying the f32 index
(filter.rs line 318); floating-point rounding itself is kept abstract. -/
structure MetadataSegmentReader where
  bool_metadata_index_reader : Option (MetadataIndexReader Bool)
  u32_metadata_index_reader : Option (MetadataIndexReader ℕ)
  f32_metadata_index_reader : Option (MetadataIndexReader ℚ)
  string_metadata_index_reader : Option (MetadataIndexReader String)
  full_text_index_reader : Option FullTextIndexReader
  narrow_f32 : ℚ → ℚ

/-- Dispatch of `op` to the index reader's `get/gt/gte/lt/lte`
(filter.rs lines 327-340); an absent reader yields the empty bitmap, and the
`NotEqual` arm is `unreachable!` in the source (desugared at the evaluator),
modelled as empty. -/
def queryIndex {κ : Type} (reader : Option (MetadataIndexReader κ)) (key : String)
    (kw : κ) (op : PrimitiveOperator) : Bitmap :=
  match reader with
  | some reader =>
    match op with
    | .Equal => reader.get key kw
    | .GreaterThan => reader.gt key kw
    | .GreaterThanOrEqual => reader.gte key kw
    | .LessThan => reader.lt key kw
    | .LessThanOrEqual => reader.lte key kw
    | .NotEqual => ∅
  | none => ∅

/-- `MetadataProvider` (filter.rs lines 191-197). -/
inductive MetadataProvider where
  | CompactData (metadata_segment_reader : MetadataSegmentReader)
      (record_segment_reader : Option RecordSegmentReader)
  | Log (metadata_log_reader : MetadataLogReader)

/-- The point-lookup verification path of `filter_by_document_regex`
(filter.rs lines 249-259): keep each candidate offset whose record exists and
whose document matches the regex. -/
def regexPointLookup (rec_reader : RecordSegmentReader) (regex : ChromaRegex)
    (offset_ids : Bitmap) : Bitmap :=
  offset_ids.filter (fun id =>
    isSomeAnd (rec_reader.get_data_for_offset_id id)
      (fun rec => isSomeAnd rec regex.is_match))

/-- The full-scan verification path of `filter_by_document_regex`
(filter.rs lines 261-277): stream all records, keep offsets inside the
candidate set (when present) whose document matches the regex. -/
def regexStreamScan (rec_reader : RecordSegmentReader) (regex : ChromaRegex)
    (candidate_offsets : Option Bitmap) : Bitmap :=
  ((rec_reader.get_data_stream.filter (fun p =>
      (candidate_offsets.isNone
        || isSomeAnd candidate_offsets (fun offsets => decide (p.1 ∈ offsets)))
      && isSomeAnd p.2 regex.is_match)).map Prod.fst).toFinset

/-- The segment arm of `MetadataProvider::filter_by_document_regex`
(filter.rs lines 229-284), in the case where both the full-text index reader
and the record segment reader exist. -/
def filterByDocumentRegexCompact (fti_reader : FullTextIndexReader)
    (rec_reader : RecordSegmentReader) (chroma_regex : ChromaRegex) : Bitmap :=
  let approximate_matching_offset_ids :=
    fti_reader.match_literal_expression chroma_regex
  let is_exact_match :=
    chroma_regex.look_set_is_empty && fti_reader.can_match_exactly chroma_regex
  if is_exact_match then
    approximate_matching_offset_ids.getD rec_reader.get_offset_stream.toFinset
  else
    match approximate_matching_offset_ids with
    | some offset_ids =>
      if offset_ids.card < rec_reader.count / 10 then
        regexPointLookup rec_reader chroma_regex offset_ids
      else
        regexStreamScan rec_reader chroma_regex (some offset_ids)
    | none => regexStreamScan rec_reader chroma_regex none

namespace MetadataProvider

/-- `MetadataProvider::filter_by_document_contains` (filter.rs lines 200-221). -/
def filter_by_document_contains : MetadataProvider → String → Bitmap
  | .CompactData metadata_segment_reader _, query =>
    match metadata_segment_reader.full_text_index_reader with
    | some reader => reader.search query
    | none => ∅
  | .Log metadata_log_reader, query =>
    ((metadata_log_reader.document.filter
        (fun p => p.2.containsSubstr query.toSubstring)).map Prod.fst).toFinset

/-- `MetadataProvider::filter_by_document_regex` (filter.rs lines 223-297);
`parse` models `ChromaRegex::try_from` on the query string (assumed to
succeed; the error path is not modelled). -/
def filter_by_document_regex (parse : String → ChromaRegex) :
    MetadataProvider → String → Bitmap
  | .CompactData metadata_segment_reader record_segment_reader, query =>
    match metadata_segment_reader.full_text_index_reader, record_segment_reader with
    | some fti_reader, some rec_reader =>
      filterByDocumentRegexCompact fti_reader rec_reader (parse query)
    | _, _ => ∅
  | .Log metadata_log_reader, query =>
    ((metadata_log_reader.document.filter
        (fun p => (parse query).is_match p.2)).map Prod.fst).toFinset

/-- `MetadataProvider::filter_by_metadata` (filter.rs lines 299-344). The
segment arm narrows the query value per variant before consulting the typed
column index: `Int(i)` with the wrapping cast `i as u32` (modelled as
`(i % 2^32).toNat`), `Float(f)` with the `f as f32` narrowing (modelled by
`narrow_f32`). The log arm delegates to `MetadataLogReader::get`. -/
def filter_by_metadata : MetadataProvider → String → MetadataValue →
    PrimitiveOperator → Bitmap
  | .CompactData metadata_segment_reader _, key, val, op =>
    match val with
    | .Bool b =>
      queryIndex metadata_segment_reader.bool_metadata_index_reader key b op
    | .Int i =>
      queryIndex metadata_segment_reader.u32_metadata_index_reader key
        (i % (2 ^ 32 : ℤ)).toNat op
    | .Float f =>
      queryIndex metadata_segment_reader.f32_metadata_index_reader key
        (metadata_segment_reader.narrow_f32 f) op
    | .Str s =>
      queryIndex metadata_segment_reader.string_metadata_index_reader key s op
  | .Log metadata_log_reader, key, val, op => metadata_log_reader.get key val op

end MetadataProvider

/-- `chroma_types::MetadataSetValue`: per-variant value lists. -/
inductive MetadataSetValue where
  | Bool (vec : List Bool)
  | Int (vec : List ℤ)
  | Float (vec : List ℚ)
  | Str (vec : List String)

/-- `chroma_types::MetadataComparison`. -/
inductive MetadataComparison where
  | Primitive (op : PrimitiveOperator) (value : MetadataValue)
  | Set (op : SetOperator) (value : MetadataSetValue)

/-- `chroma_types::MetadataExpression`. -/
structure MetadataExpression where
  key : String
  comparison : MetadataComparison

/-- `chroma_types::DocumentExpression`. -/
structure DocumentExpression where
  operator : DocumentOperator
  pattern : String

mutual
/-- `chroma_types::Where`: the predicate tree. -/
inductive Where where
  | Metadata (expr : MetadataExpression)
  | Document (expr : DocumentExpression)
  | Composite (expr : CompositeExpression)

/-- `chroma_types::CompositeExpression`. -/
inductive CompositeExpression where
  | mk (operator : BooleanOperator) (children : List Where)
end

/-- Accessor for the boolean operator of a composite node. -/
def CompositeExpression.operator : CompositeExpression → BooleanOperator
  | .mk op _ => op

/-- Accessor for the children of a composite node. -/
def CompositeExpression.children : CompositeExpression → List Where
  | .mk _ c => c

/-- Expansion of a `MetadataSetValue` into individual `MetadataValue`s
(filter.rs lines 402-415). -/
def childValues : MetadataSetValue → List MetadataValue
  | .Bool vec => vec.map MetadataValue.Bool
  | .Int vec => vec.map MetadataValue.Int
  | .Float vec => vec.map MetadataValue.Float
  | .Str vec => vec.map MetadataValue.Str

/-- `RoaringMetadataFilter::eval` for `MetadataExpression`
(filter.rs lines 372-442): `NotEqual` is desugared into the complement of the
equality lookup; the five remaining primitive operators pass through to the
provider; set operators fold per-value equality lookups. -/
def MetadataExpression.eval (p : MetadataProvider) (e : MetadataExpression) :
    SignedRoaringBitmap :=
  match e.comparison with
  | .Primitive primitive_operator metadata_value =>
    match primitive_operator with
    | .NotEqual =>
      .Exclude (p.filter_by_metadata e.key metadata_value .Equal)
    | .Equal | .GreaterThan | .GreaterThanOrEqual | .LessThan | .LessThanOrEqual =>
      .Include (p.filter_by_metadata e.key metadata_value primitive_operator)
  | .Set set_operator metadata_set_value =>
    let child_values := childValues metadata_set_value
    let child_evaluations := child_values.map (fun value =>
      let eval := p.filter_by_metadata e.key value .Equal
      match set_operator with
      | .In => SignedRoaringBitmap.Include eval
      | .NotIn => SignedRoaringBitmap.Exclude eval)
    match set_operator with
    | .In =>
      child_evaluations.foldl SignedRoaringBitmap.bor SignedRoaringBitmap.empty
    | .NotIn =>
      child_evaluations.foldl SignedRoaringBitmap.band SignedRoaringBitmap.full

/-- `RoaringMetadataFilter::eval` for `DocumentExpression`
(filter.rs lines 444-472). -/
def DocumentExpression.eval (parse : String → ChromaRegex) (p : MetadataProvider)
    (e : DocumentExpression) : SignedRoaringBitmap :=
  match e.operator with
  | .Contains => .Include (p.filter_by_document_contains e.pattern)
  | .NotContains => .Exclude (p.filter_by_document_contains e.pattern)
  | .Regex => .Include (p.filter_by_document_regex parse e.pattern)
  | .NotRegex => .Exclude (p.filter_by_document_regex parse e.pattern)

mutual
/-- `RoaringMetadataFilter::eval` for `Where` (filter.rs lines 354-370). -/
def Where.eval (parse : String → ChromaRegex) (p : MetadataProvider) :
    Where → SignedRoaringBitmap
  | .Metadata direct_comparison => direct_comparison.eval p
  | .Document direct_document_comparison =>
    direct_document_comparison.eval parse p
  | .Composite where_children => CompositeExpression.eval parse p where_children

/-- `RoaringMetadataFilter::eval` for `CompositeExpression`
(filter.rs lines 474-492): children are evaluated in order, then folded with
`&` from `full()` for `And`, and with `|` from `empty()` for `Or`. -/
def CompositeExpression.eval (parse : String → ChromaRegex) (p : MetadataProvider) :
    CompositeExpression → SignedRoaringBitmap
  | .mk operator children =>
    let child_evaluations := evalChildren parse p children
    match operator with
    | .And =>
      child_evaluations.foldl SignedRoaringBitmap.band SignedRoaringBitmap.full
    | .Or =>
      child_evaluations.foldl SignedRoaringBitmap.bor SignedRoaringBitmap.empty

/-- Sequential evaluation of composite children (the loop at
filter.rs lines 479-482). -/
def evalChildren (parse : String → ChromaRegex) (p : MetadataProvider) :
    List Where → List SignedRoaringBitmap
  | [] => []
  | child :: rest => Where.eval parse p child :: evalChildren parse p rest
end

/-- Modelled from the spec (§6, §7):
`chroma_segment::blockfile_record::RecordSegmentReaderCreationError` (its
definition lives outside the sources at hand): the distinguished
`UninitializedSegment` case, plus the other creation failures collapsed into
one abstract case. -/
inductive RecordSegmentReaderCreationError where
  | UninitializedSegment
  | OtherError (code : ℕ)
deriving DecidableEq

/-- Opaque payload of `LogMaterializerError` (external to the sources at hand). -/
structure LogMaterializerError where
  code : ℕ
deriving DecidableEq

/-- Opaque payload of `MetadataSegmentError` (external to the sources at hand). -/
structure MetadataSegmentError where
  code : ℕ
deriving DecidableEq

/-- `FilterError` (filter.rs lines 69-83), payloads of externally-defined
error types abstracted to codes. -/
inductive FilterError where
  | Index (code : ℕ)
  | LogMaterializer (e : LogMaterializerError)
  | MetadataReader (e : MetadataSegmentError)
  | Record (code : ℕ)
  | RecordReader (e : RecordSegmentReaderCreationError)
  | Regex (code : ℕ)
deriving DecidableEq

/-- `FilterOperator` (filter.rs lines 49-53). -/
structure FilterOperator where
  query_ids : Option (List String)
  where_clause : Option Where

/-- `FilterInput` (filter.rs lines 55-61), with each external I/O interaction
replaced by its outcome: `record_reader_result` models
`RecordSegmentReader::from_segment(record_segment, blockfile_provider)`,
`materialize_result` models `materialize_logs` together with the entry
hydrations performed in `MetadataLogReader::create`, `metadata_reader_result`
models `MetadataSegmentReader::from_segment(metadata_segment,
blockfile_provider)`, and `parse` the regex compilation environment. -/
structure FilterInput where
  record_reader_result :
    Except RecordSegmentReaderCreationError RecordSegmentReader
  materialize_result : Except LogMaterializerError (List MaterializedLogEntry)
  metadata_reader_result : Except MetadataSegmentError MetadataSegmentReader
  parse : String → ChromaRegex

/-- `FilterOutput` (filter.rs lines 63-67). -/
structure FilterOutput where
  log_offset_ids : SignedRoaringBitmap
  compact_offset_ids : SignedRoaringBitmap
deriving DecidableEq

/-- The record-reader opening step of `FilterOperator::run`
(filter.rs lines 506-517): the `UninitializedSegment` creation error is
demoted to an absent reader; any other creation error becomes
`FilterError::RecordReader`. -/
def openRecordSegmentReader
    (result : Except RecordSegmentReaderCreationError RecordSegmentReader) :
    Except FilterError (Option RecordSegmentReader) :=
  match result with
  | .ok reader => .ok (some reader)
  | .error .UninitializedSegment => .ok none
  | .error e => .error (.RecordReader e)

/-- The id-whitelist computation of `FilterOperator::run`
(filter.rs lines 536-570): with `query_ids` unset both masks are `full()`;
otherwise the log mask includes the offsets found by `search_user_ids`, and
the segment mask includes the offsets found by
`get_offset_id_for_user_id` (ids resolving to `None` are dropped), falling
back to `full()` when the record reader is absent. The `Err` branch of
`get_offset_id_for_user_id` is not modelled (the lookup is pure here). -/
def userAllowedOffsetIds (query_ids : Option (List String))
    (metadata_log_reader : MetadataLogReader)
    (record_segment_reader : Option RecordSegmentReader) :
    SignedRoaringBitmap × SignedRoaringBitmap :=
  match query_ids with
  | some user_allowed_ids =>
    let log_offset_ids := SignedRoaringBitmap.Include
      (metadata_log_reader.search_user_ids user_allowed_ids)
    let compact_offset_ids :=
      match record_segment_reader with
      | some reader => SignedRoaringBitmap.Include
          (user_allowed_ids.filterMap reader.user_id_to_offset).toFinset
      | none => SignedRoaringBitmap.full
    (log_offset_ids, compact_offset_ids)
  | none => (SignedRoaringBitmap.full, SignedRoaringBitmap.full)

/-- The pure tail of `FilterOperator::run` (filter.rs lines 523-594), as a
function of the resolved collaborator outcomes: build the log reader and both
providers, compute the id-whitelist masks, evaluate the optional where clause
against each provider, and combine; the segment side is always intersected
with `Exclude(updated_offset_ids)`. -/
def runOutput (op : FilterOperator) (parse : String → ChromaRegex)
    (record_segment_reader : Option RecordSegmentReader)
    (materialized_logs : List MaterializedLogEntry)
    (metadata_segement_reader : MetadataSegmentReader) : FilterOutput :=
  let metadata_log_reader := MetadataLogReader.create materialized_logs
  let log_metadata_provider := MetadataProvider.Log metadata_log_reader
  let compact_metadata_provider :=
    MetadataProvider.CompactData metadata_segement_reader record_segment_reader
  let (user_allowed_log_offset_ids, user_allowed_compact_offset_ids) :=
    userAllowedOffsetIds op.query_ids metadata_log_reader record_segment_reader
  let log_offset_ids :=
    match op.where_clause with
    | some clause =>
      SignedRoaringBitmap.band
        (Where.eval parse log_metadata_provider clause)
        user_allowed_log_offset_ids
    | none => user_allowed_log_offset_ids
  let compact_offset_ids :=
    match op.where_clause with
    | some clause =>
      SignedRoaringBitmap.band
        (SignedRoaringBitmap.band
          (Where.eval parse compact_metadata_provider clause)
          user_allowed_compact_offset_ids)
        (SignedRoaringBitmap.Exclude metadata_log_reader.updated_offset_ids)
    | none =>
      SignedRoaringBitmap.band user_allowed_compact_offset_ids
        (SignedRoaringBitmap.Exclude metadata_log_reader.updated_offset_ids)
  { log_offset_ids := log_offset_ids, compact_offset_ids := compact_offset_ids }

/-- `FilterOperator::run` (filter.rs lines 498-594): open the record reader
(demoting `UninitializedSegment`), materialize the logs, open the metadata
reader, then compute the two output bitmaps. -/
def FilterOperator.run (op : FilterOperator) (input : FilterInput) :
    Except FilterError FilterOutput := do
  let record_segment_reader ← openRecordSegmentReader input.record_reader_result
  let materialized_logs ←
    input.materialize_result.mapError FilterError.LogMaterializer
  let metadata_segement_reader ←
    input.metadata_reader_result.mapError FilterError.MetadataReader
  return runOutput op input.parse record_segment_reader materialized_logs
    metadata_segement_reader

/-! ## Supporting lemmas -/

theorem mem_foldl_union {o : ℕ} (l : List Bitmap) (init : Bitmap) :
    o ∈ l.foldl (· ∪ ·) init ↔ o ∈ init ∨ ∃ b ∈ l, o ∈ b := by
  induction l generalizing init with
  | nil => simp
  | cons hd tl ih =>
    simp only [List.foldl_cons, ih, Finset.mem_union, List.mem_cons]
    constructor
    · rintro (⟨h1 | h2⟩ | ⟨b, hb, h3⟩)
      · exact Or.inl h1
      · exact Or.inr ⟨hd, Or.inl rfl, h2⟩
      · exact Or.inr ⟨b, Or.inr hb, h3⟩
    · rintro (h1 | ⟨b, hb | hb, h3⟩)
      · exact Or.inl (Or.inl h1)
      · exact Or.inl (Or.inr (hb ▸ h3))
      · exact Or.inr ⟨b, hb, h3⟩

theorem evalChildren_eq_map (parse : String → ChromaRegex) (p : MetadataProvider) :
    ∀ l : List Where, evalChildren parse p l = l.map (Where.eval parse p)
  | [] => rfl
  | child :: rest => by
    rw [evalChildren, List.map_cons, evalChildren_eq_map parse p rest]

theorem run_eq_of_resolved (op : FilterOperator) (input : FilterInput)
    (record_segment_reader : Option RecordSegmentReader)
    (logs : List MaterializedLogEntry) (msr : MetadataSegmentReader)
    (h1 : openRecordSegmentReader input.record_reader_result = .ok record_segment_reader)
    (h2 : input.materialize_result = .ok logs)
    (h3 : input.metadata_reader_result = .ok msr) :
    op.run input = .ok (runOutput op input.parse record_segment_reader logs msr) := by
  unfold FilterOperator.run
  rw [h1, h2, h3]
  rfl

theorem run_ok_inv {op : FilterOperator} {input : FilterInput} {out : FilterOutput}
    (h : op.run input = .ok out) :
    ∃ (record_segment_reader : Option RecordSegmentReader)
      (logs : List MaterializedLogEntry) (msr : MetadataSegmentReader),
      openRecordSegmentReader input.record_reader_result = .ok record_segment_reader
      ∧ input.materialize_result = .ok logs
      ∧ input.metadata_reader_result = .ok msr
      ∧ out = runOutput op input.parse record_segment_reader logs msr := by
  unfold FilterOperator.run at h
  cases h1 : openRecordSegmentReader input.record_reader_result with
  | error e => rw [h1] at h; exact absurd h (by simp [Bind.bind, Except.bind])
  | ok record_segment_reader =>
    rw [h1] at h
    cases h2 : input.materialize_result with
    | error e =>
      rw [h2] at h
      exact absurd h (by simp [Bind.bind, Except.bind, Except.mapError, Except.map])
    | ok logs =>
      rw [h2] at h
      cases h3 : input.metadata_reader_result with
      | error e =>
        rw [h3] at h
        exact absurd h (by simp [Bind.bind, Except.bind, Except.mapError, Except.map])
      | ok msr =>
        rw [h3] at h
        refine ⟨record_segment_reader, logs, msr, rfl, rfl, rfl, ?_⟩
        have : Except.ok (ε := FilterError)
            (runOutput op input.parse record_segment_reader logs msr) = .ok out := h
        exact (Except.ok.inj this).symm

theorem not_mem_band_exclude {o : ℕ} (s : SignedRoaringBitmap) (b : Bitmap)
    (h : o ∈ b) :
    ¬ SignedRoaringBitmap.mem o (SignedRoaringBitmap.band s (.Exclude b)) := by
  rw [SignedRoaringBitmap.mem_band]
  rintro ⟨-, h2⟩
  exact h2 h

theorem band_include_empty (s : SignedRoaringBitmap) :
    SignedRoaringBitmap.band s (.Include ∅) = .Include ∅ := by
  cases s <;> simp [SignedRoaringBitmap.band]

theorem include_empty_band (s : SignedRoaringBitmap) :
    SignedRoaringBitmap.band (.Include ∅) s = .Include ∅ := by
  cases s <;> simp [SignedRoaringBitmap.band]

theorem runOutput_compact_shape (op : FilterOperator) (parse : String → ChromaRegex)
    (record_segment_reader : Option RecordSegmentReader)
    (logs : List MaterializedLogEntry) (msr : MetadataSegmentReader) :
    ∃ s : SignedRoaringBitmap,
      (runOutput op parse record_segment_reader logs msr).compact_offset_ids
        = SignedRoaringBitmap.band s
            (.Exclude (MetadataLogReader.create logs).updated_offset_ids) := by
  unfold runOutput
  cases op.where_clause <;> exact ⟨_, rfl⟩

/-! ## Concrete fixtures used by the witnesses -/

/-- A metadata segment reader with every index absent. -/
def emptySegmentReader : MetadataSegmentReader :=
  { bool_metadata_index_reader := none
    u32_metadata_index_reader := none
    f32_metadata_index_reader := none
    string_metadata_index_reader := none
    full_text_index_reader := none
    narrow_f32 := id }

/-- A regex whose compiled form matches everything. -/
def trivialRegex : ChromaRegex := { look_set_is_empty := true, is_match := fun _ => true }

/-- A record segment reader over no records. -/
def sampleRecordReader : RecordSegmentReader :=
  { records := [], user_id_to_offset := fun _ => none }

/-- One materialized update of offset 3 (a shadowed, live offset). -/
def sampleLogs : List MaterializedLogEntry :=
  [{ operation := .UpdateExisting, offset_id := 3, user_id := "u3",
     metadata := [], document := none }]

/-- A sample input whose collaborator outcomes all succeed. -/
def sampleInput : FilterInput :=
  { record_reader_result := .ok sampleRecordReader
    materialize_result := .ok sampleLogs
    metadata_reader_result := .ok emptySegmentReader
    parse := fun _ => trivialRegex }

/-! ## Claims -/

/-- C5: for every key, query value `v` and provider, evaluating
`Primitive(≠, v)` yields `Exclude(provider.compare(key, v, =))`, which is
exactly the complement (`flip`) of evaluating `Primitive(=, v)` on the same
provider; consequently every offset outside the equality result — in
particular a record lacking the key entirely — is selected by the `≠`
predicate. -/
theorem not_equal_eval_complement (p : MetadataProvider) (key : String)
    (v : MetadataValue) :
    MetadataExpression.eval p ⟨key, .Primitive .NotEqual v⟩
        = SignedRoaringBitmap.Exclude (p.filter_by_metadata key v .Equal)
    ∧ MetadataExpression.eval p ⟨key, .Primitive .NotEqual v⟩
        = SignedRoaringBitmap.flip (MetadataExpression.eval p ⟨key, .Primitive .Equal v⟩)
    ∧ (∀ o : ℕ,
        SignedRoaringBitmap.mem o (MetadataExpression.eval p ⟨key, .Primitive .NotEqual v⟩)
          ↔ o ∉ p.filter_by_metadata key v .Equal) := by
  refine ⟨rfl, rfl, fun o => ?_⟩
  simp [MetadataExpression.eval, SignedRoaringBitmap.mem]

/-- C7: `Set(In, vs)` evaluates to the fold of `Include(compare(key, vᵢ, =))`
under `|` from `Include(∅)`, so membership is existential over the list;
`Set(NotIn, vs)` evaluates to the fold of `Exclude(compare(key, vᵢ, =))` under
`&` from `Exclude(∅)`, so membership is universal exclusion; the empty `In`
list is the empty set and the empty `NotIn` list is the universe. -/
theorem set_eval_characterization (p : MetadataProvider) (key : String)
    (msv : MetadataSetValue) :
    MetadataExpression.eval p ⟨key, .Set .In msv⟩
        = ((childValues msv).map (fun v =>
            SignedRoaringBitmap.Include (p.filter_by_metadata key v .Equal))).foldl
          SignedRoaringBitmap.bor SignedRoaringBitmap.empty
    ∧ MetadataExpression.eval p ⟨key, .Set .NotIn msv⟩
        = ((childValues msv).map (fun v =>
            SignedRoaringBitmap.Exclude (p.filter_by_metadata key v .Equal))).foldl
          SignedRoaringBitmap.band SignedRoaringBitmap.full
    ∧ (∀ o : ℕ,
        SignedRoaringBitmap.mem o (MetadataExpression.eval p ⟨key, .Set .In msv⟩)
          ↔ ∃ v ∈ childValues msv, o ∈ p.filter_by_metadata key v .Equal)
    ∧ (∀ o : ℕ,
        SignedRoaringBitmap.mem o (MetadataExpression.eval p ⟨key, .Set .NotIn msv⟩)
          ↔ ∀ v ∈ childValues msv, o ∉ p.filter_by_metadata key v .Equal)
    ∧ MetadataExpression.eval p ⟨key, .Set .In (.Int [])⟩
        = SignedRoaringBitmap.Include ∅
    ∧ MetadataExpression.eval p ⟨key, .Set .NotIn (.Int [])⟩
        = SignedRoaringBitmap.Exclude ∅ := by
  refine ⟨rfl, rfl, fun o => ?_, fun o => ?_, rfl, rfl⟩
  · rw [show MetadataExpression.eval p ⟨key, .Set .In msv⟩
        = ((childValues msv).map (fun v =>
            SignedRoaringBitmap.Include (p.filter_by_metadata key v .Equal))).foldl
          SignedRoaringBitmap.bor SignedRoaringBitmap.empty from rfl,
      SignedRoaringBitmap.mem_foldl_bor]
    simp [List.mem_map]
  · rw [show MetadataExpression.eval p ⟨key, .Set .NotIn msv⟩
        = ((childValues msv).map (fun v =>
            SignedRoaringBitmap.Exclude (p.filter_by_metadata key v .Equal))).foldl
          SignedRoaringBitmap.band SignedRoaringBitmap.full from rfl,
      SignedRoaringBitmap.mem_foldl_band]
    simp [List.mem_map]

/-- C8: an `And` composite evaluates to the fold of its children's results
under `&` from `Exclude(∅)` (membership is universal over children), an `Or`
composite to the fold under `|` from `Include(∅)` (membership is
existential); a childless `And` is the universe, a childless `Or` is empty,
and `P ∧ ⊤ ≡ P`, `P ∨ ⊥ ≡ P` hold extensionally. -/
theorem composite_eval_characterization (parse : String → ChromaRegex)
    (p : MetadataProvider) (children : List Where) :
    (∀ o : ℕ,
        SignedRoaringBitmap.mem o (CompositeExpression.eval parse p (.mk .And children))
          ↔ ∀ c ∈ children, SignedRoaringBitmap.mem o (Where.eval parse p c))
    ∧ (∀ o : ℕ,
        SignedRoaringBitmap.mem o (CompositeExpression.eval parse p (.mk .Or children))
          ↔ ∃ c ∈ children, SignedRoaringBitmap.mem o (Where.eval parse p c))
    ∧ CompositeExpression.eval parse p (.mk .And []) = SignedRoaringBitmap.Exclude ∅
    ∧ CompositeExpression.eval parse p (.mk .Or []) = SignedRoaringBitmap.Include ∅
    ∧ (∀ (P : Where) (o : ℕ),
        SignedRoaringBitmap.mem o
            (CompositeExpression.eval parse p (.mk .And [P, .Composite (.mk .And [])]))
          ↔ SignedRoaringBitmap.mem o (Where.eval parse p P))
    ∧ (∀ (P : Where) (o : ℕ),
        SignedRoaringBitmap.mem o
            (CompositeExpression.eval parse p (.mk .Or [P, .Composite (.mk .Or [])]))
          ↔ SignedRoaringBitmap.mem o (Where.eval parse p P)) := by
  have hAnd : ∀ (cs : List Where) (o : ℕ),
      SignedRoaringBitmap.mem o (CompositeExpression.eval parse p (.mk .And cs))
        ↔ ∀ c ∈ cs, SignedRoaringBitmap.mem o (Where.eval parse p c) := by
    intro cs o
    rw [CompositeExpression.eval, evalChildren_eq_map, SignedRoaringBitmap.mem_foldl_band]
    simp [List.mem_map]
  have hOr : ∀ (cs : List Where) (o : ℕ),
      SignedRoaringBitmap.mem o (CompositeExpression.eval parse p (.mk .Or cs))
        ↔ ∃ c ∈ cs, SignedRoaringBitmap.mem o (Where.eval parse p c) := by
    intro cs o
    rw [CompositeExpression.eval, evalChildren_eq_map, SignedRoaringBitmap.mem_foldl_bor]
    simp [List.mem_map]
  refine ⟨hAnd children, hOr children, rfl, rfl, fun P o => ?_, fun P o => ?_⟩
  · rw [hAnd]
    simp only [List.mem_cons, List.not_mem_nil, or_false]
    constructor
    · intro h
      exact h P (Or.inl rfl)
    · rintro h c (rfl | rfl)
      · exact h
      · rw [Where.eval, hAnd]
        simp
  · rw [hOr]
    simp only [List.mem_cons, List.not_mem_nil, or_false]
    constructor
    · rintro ⟨c, rfl | rfl, hm⟩
      · exact hm
      · rw [Where.eval, hOr] at hm
        simp at hm
    · intro h
      exact ⟨P, Or.inl rfl, h⟩

/-- C1: for every run of `FilterOperator::run` that succeeds, the returned
`compact_offset_ids`, read as a set, is disjoint from the shadowed set (the
`updated_offset_ids` of the log reader built from the materialized logs):
whether or not a where clause is present, `Exclude(shadowed)` is intersected
into the segment-side result. -/
theorem run_compact_disjoint_from_shadowed (op : FilterOperator)
    (input : FilterInput) (out : FilterOutput) (logs : List MaterializedLogEntry)
    (hm : input.materialize_result = .ok logs)
    (hrun : op.run input = .ok out) :
    ∀ o ∈ (MetadataLogReader.create logs).updated_offset_ids,
      ¬ SignedRoaringBitmap.mem o out.compact_offset_ids := by
  intro o ho
  obtain ⟨r, logs', msr, h1, h2, h3, hout⟩ := run_ok_inv hrun
  rw [hm] at h2
  obtain rfl : logs = logs' := Except.ok.inj h2
  obtain ⟨s, hs⟩ := runOutput_compact_shape op input.parse r logs msr
  rw [hout, hs]
  exact not_mem_band_exclude s _ ho

/-- Operator of the concrete C1 run: no whitelist, no where clause. -/
def c1Op : FilterOperator := { query_ids := none, where_clause := none }

/-- Output of the concrete C1 run. -/
def c1Out : FilterOutput :=
  runOutput c1Op sampleInput.parse (some sampleRecordReader) sampleLogs
    emptySegmentReader

/-- Witness for C1: a concrete successful run whose shadowed set contains
offset 3, which is indeed absent from the compact output. -/
theorem run_compact_disjoint_from_shadowed_witness :
    sampleInput.materialize_result = .ok sampleLogs
    ∧ c1Op.run sampleInput = .ok c1Out
    ∧ 3 ∈ (MetadataLogReader.create sampleLogs).updated_offset_ids
    ∧ ¬ SignedRoaringBitmap.mem 3 c1Out.compact_offset_ids :=
  ⟨rfl, rfl, by decide,
    run_compact_disjoint_from_shadowed c1Op sampleInput c1Out sampleLogs rfl rfl
      3 (by decide)⟩

/-- C9: when `query_ids` is `Some` with an empty id list, a successful run
returns `log_offset_ids = Include(∅)` regardless of the where clause, and
`compact_offset_ids = Include(∅)` whenever the record segment reader exists:
an empty whitelist excludes everything. -/
theorem run_empty_whitelist (op : FilterOperator) (input : FilterInput)
    (out : FilterOutput)
    (hq : op.query_ids = some [])
    (hrun : op.run input = .ok out) :
    out.log_offset_ids = SignedRoaringBitmap.Include ∅
    ∧ (∀ r : RecordSegmentReader, input.record_reader_result = .ok r →
        out.compact_offset_ids = SignedRoaringBitmap.Include ∅) := by
  obtain ⟨r?, logs, msr, h1, h2, h3, hout⟩ := run_ok_inv hrun
  subst hout
  constructor
  · cases hw : op.where_clause <;>
      simp [runOutput, userAllowedOffsetIds, hq, hw,
        MetadataLogReader.search_user_ids, band_include_empty]
  · intro r hr
    rw [hr] at h1
    obtain rfl : some r = r? := Except.ok.inj h1
    cases hw : op.where_clause <;>
      simp [runOutput, userAllowedOffsetIds, hq, hw, band_include_empty,
        include_empty_band]

/-- Operator of the concrete C9 run: an empty whitelist. -/
def c9Op : FilterOperator := { query_ids := some [], where_clause := none }

/-- Output of the concrete C9 run. -/
def c9Out : FilterOutput :=
  runOutput c9Op sampleInput.parse (some sampleRecordReader) sampleLogs
    emptySegmentReader

/-- Witness for C9 at a concrete run with an empty whitelist. -/
theorem run_empty_whitelist_witness :
    c9Op.query_ids = some []
    ∧ c9Op.run sampleInput = .ok c9Out
    ∧ c9Out.log_offset_ids = SignedRoaringBitmap.Include ∅
    ∧ c9Out.compact_offset_ids = SignedRoaringBitmap.Include ∅ :=
  ⟨rfl, rfl,
    (run_empty_whitelist c9Op sampleInput c9Out rfl rfl).1,
    (run_empty_whitelist c9Op sampleInput c9Out rfl rfl).2 sampleRecordReader rfl⟩

/-- C3: the id-whitelist masks of `FilterOperator::run`: with `query_ids`
unset both masks are `Exclude(∅)` (the universe); with `query_ids` set, the
log mask is `Include` of exactly those offsets the user-id map resolves and
the segment mask `Include` of exactly those offsets the record reader
resolves (ids resolving to nothing contribute nothing); with the record
reader absent, the segment mask is `Exclude(∅)`. -/
theorem user_allowed_masks (mlr : MetadataLogReader) (r : RecordSegmentReader)
    (ids : List String) :
    userAllowedOffsetIds none mlr (some r)
        = (SignedRoaringBitmap.Exclude ∅, SignedRoaringBitmap.Exclude ∅)
    ∧ userAllowedOffsetIds none mlr none
        = (SignedRoaringBitmap.Exclude ∅, SignedRoaringBitmap.Exclude ∅)
    ∧ (userAllowedOffsetIds (some ids) mlr (some r)).1
        = SignedRoaringBitmap.Include (mlr.search_user_ids ids)
    ∧ (userAllowedOffsetIds (some ids) mlr none).1
        = SignedRoaringBitmap.Include (mlr.search_user_ids ids)
    ∧ (∀ o : ℕ,
        SignedRoaringBitmap.mem o (userAllowedOffsetIds (some ids) mlr (some r)).1
          ↔ ∃ id ∈ ids, lookupAssoc mlr.user_id_to_offset_id id = some o)
    ∧ (∀ o : ℕ,
        SignedRoaringBitmap.mem o (userAllowedOffsetIds (some ids) mlr (some r)).2
          ↔ ∃ id ∈ ids, r.user_id_to_offset id = some o)
    ∧ (userAllowedOffsetIds (some ids) mlr none).2
        = SignedRoaringBitmap.Exclude ∅ := by
  refine ⟨rfl, rfl, rfl, rfl, fun o => ?_, fun o => ?_, rfl⟩
  · simp [userAllowedOffsetIds, MetadataLogReader.search_user_ids,
      List.mem_filterMap]
  · simp [userAllowedOffsetIds, List.mem_filterMap]

/-- C6: the `UninitializedSegment` record-reader creation error is demoted to
an absent reader — the run continues without a segment side and succeeds when
the other collaborators succeed — while every other creation error is
returned from `run` as a `RecordReader` error. -/
theorem record_reader_error_demotion (op : FilterOperator) (input : FilterInput) :
    openRecordSegmentReader (.error .UninitializedSegment) = .ok none
    ∧ (input.record_reader_result = .error .UninitializedSegment →
        ∀ (logs : List MaterializedLogEntry) (msr : MetadataSegmentReader),
          input.materialize_result = .ok logs →
          input.metadata_reader_result = .ok msr →
          op.run input = .ok (runOutput op input.parse none logs msr))
    ∧ (∀ e : RecordSegmentReaderCreationError, e ≠ .UninitializedSegment →
        input.record_reader_result = .error e →
        op.run input = .error (.RecordReader e)) := by
  refine ⟨rfl, ?_, ?_⟩
  · intro hr logs msr hm hmeta
    exact run_eq_of_resolved op input none logs msr (by rw [hr]; rfl) hm hmeta
  · intro e he hr
    unfold FilterOperator.run
    rw [hr]
    cases e with
    | UninitializedSegment => exact absurd rfl he
    | OtherError c => rfl

/-- Input of the concrete C6 run whose record segment is uninitialized. -/
def c6InputUninit : FilterInput :=
  { record_reader_result := .error .UninitializedSegment
    materialize_result := .ok []
    metadata_reader_result := .ok emptySegmentReader
    parse := fun _ => trivialRegex }

/-- Input of the concrete C6 run whose record reader creation fails otherwise. -/
def c6InputOther : FilterInput :=
  { record_reader_result := .error (.OtherError 7)
    materialize_result := .ok []
    metadata_reader_result := .ok emptySegmentReader
    parse := fun _ => trivialRegex }

/-- Witness for C6: with an uninitialized record segment the run succeeds;
with another creation error it fails as `RecordReader`. -/
theorem record_reader_error_demotion_witness :
    c6InputUninit.record_reader_result = .error .UninitializedSegment
    ∧ FilterOperator.run ⟨none, none⟩ c6InputUninit
        = .ok (runOutput ⟨none, none⟩ c6InputUninit.parse none [] emptySegmentReader)
    ∧ c6InputOther.record_reader_result = .error (.OtherError 7)
    ∧ FilterOperator.run ⟨none, none⟩ c6InputOther
        = .error (.RecordReader (.OtherError 7)) :=
  ⟨rfl,
    (record_reader_error_demotion ⟨none, none⟩ c6InputUninit).2.1 rfl []
      emptySegmentReader rfl rfl,
    rfl,
    (record_reader_error_demotion ⟨none, none⟩ c6InputOther).2.2
      (.OtherError 7) (by decide) rfl⟩

theorem sameVariant_refl (a : MetadataValue) : sameVariant a a = true := by
  cases a <;> rfl

theorem sameVariant_symm {a b : MetadataValue} (h : sameVariant a b = true) :
    sameVariant b a = true := by
  cases a <;> cases b <;> simp_all [sameVariant]

theorem vlt_sameVariant {a b : MetadataValue} (h : vlt a b = true) :
    sameVariant a b = true := by
  cases a <;> cases b <;> simp_all [vlt, sameVariant]

theorem vle_sameVariant {a b : MetadataValue} (h : vle a b = true) :
    sameVariant a b = true := by
  rcases (by simpa [vle] using h : vlt a b = true ∨ a = b) with h' | rfl
  · exact vlt_sameVariant h'
  · exact sameVariant_refl a

theorem boundsContain_sameVariant {op : PrimitiveOperator} {val v : MetadataValue}
    (hop : op ≠ .NotEqual) (h : boundsContain op val v = true) :
    sameVariant v val = true := by
  cases op with
  | Equal =>
    obtain rfl : v = val := by simpa [boundsContain] using h
    exact sameVariant_refl v
  | NotEqual => exact absurd rfl hop
  | GreaterThan =>
    exact sameVariant_symm (vlt_sameVariant (by simpa [boundsContain] using h))
  | GreaterThanOrEqual =>
    exact sameVariant_symm (vle_sameVariant (by simpa [boundsContain] using h))
  | LessThan => exact vlt_sameVariant (by simpa [boundsContain] using h)
  | LessThanOrEqual => exact vle_sameVariant (by simpa [boundsContain] using h)

theorem mem_get_inv {r : MetadataLogReader} {key : String} {val : MetadataValue}
    {op : PrimitiveOperator} {o : ℕ} (h : o ∈ r.get key val op) :
    ∃ m, lookupAssoc r.compact_metadata key = some m
      ∧ ∃ p ∈ m, boundsContain op val p.1 = true ∧ o ∈ p.2 := by
  unfold MetadataLogReader.get at h
  cases hl : lookupAssoc r.compact_metadata key with
  | none => rw [hl] at h; simp at h
  | some m =>
    rw [hl] at h
    rw [mem_foldl_union] at h
    rcases h with h | ⟨b, hb, hob⟩
    · simp at h
    · rw [List.mem_map] at hb
      obtain ⟨p, hp, rfl⟩ := hb
      rw [List.mem_filter] at hp
      exact ⟨m, rfl, p, hp.1, hp.2, hob⟩

/-- C2: for the five comparison operators (everything but `NotEqual`, which
never reaches the provider), the log-variant `get` returns only offsets
stored under a value of the same variant as the query value: every offset of
the result is witnessed by an entry of the key's ordered value map whose
value shares `val`'s variant. -/
theorem log_get_same_variant (r : MetadataLogReader) (key : String)
    (val : MetadataValue) (op : PrimitiveOperator) (o : ℕ)
    (hop : op ≠ .NotEqual)
    (ho : o ∈ r.get key val op) :
    ∃ m, lookupAssoc r.compact_metadata key = some m
      ∧ ∃ p ∈ m, sameVariant p.1 val = true ∧ o ∈ p.2 := by
  obtain ⟨m, hm, p, hp, hb, hob⟩ := mem_get_inv ho
  exact ⟨m, hm, p, hp, boundsContain_sameVariant hop hb, hob⟩

/-- Materialized logs of the concrete C2 reader: one live entry storing
`Int 5` under key `k` at offset 7. -/
def c2Logs : List MaterializedLogEntry :=
  [{ operation := .AddNew, offset_id := 7, user_id := "u7",
     metadata := [("k", .Int 5)], document := none }]

/-- Witness for C2: querying `k > Int 3` on the concrete reader returns
offset 7, stored under the same-variant value `Int 5`. -/
theorem log_get_same_variant_witness :
    (PrimitiveOperator.GreaterThan ≠ PrimitiveOperator.NotEqual)
    ∧ 7 ∈ (MetadataLogReader.create c2Logs).get "k" (.Int 3) .GreaterThan
    ∧ ∃ m, lookupAssoc (MetadataLogReader.create c2Logs).compact_metadata "k" = some m
        ∧ ∃ p ∈ m, sameVariant p.1 (.Int 3) = true ∧ 7 ∈ p.2 :=
  ⟨by decide, by decide,
    log_get_same_variant (MetadataLogReader.create c2Logs) "k" (.Int 3)
      .GreaterThan 7 (by decide) (by decide)⟩

theorem mem_regexPointLookup {rec : RecordSegmentReader} {re : ChromaRegex}
    {b : Bitmap} {o : ℕ} :
    o ∈ regexPointLookup rec re b
      ↔ o ∈ b ∧ isSomeAnd (rec.get_data_for_offset_id o)
          (fun rcd => isSomeAnd rcd re.is_match) = true := by
  simp [regexPointLookup]

theorem mem_regexStreamScan_some {rec : RecordSegmentReader} {re : ChromaRegex}
    {cb : Bitmap} {o : ℕ} :
    o ∈ regexStreamScan rec re (some cb)
      ↔ ∃ d, (o, d) ∈ rec.records ∧ o ∈ cb ∧ isSomeAnd d re.is_match = true := by
  simp only [regexStreamScan, RecordSegmentReader.get_data_stream,
    List.mem_toFinset, List.mem_map, List.mem_filter, Option.isNone_some,
    isSomeAnd, Bool.false_or, Bool.and_eq_true, decide_eq_true_eq]
  constructor
  · rintro ⟨⟨x, d⟩, ⟨hmem, hc, hm⟩, rfl⟩
    exact ⟨d, hmem, hc, hm⟩
  · rintro ⟨d, hmem, hc, hm⟩
    exact ⟨(o, d), ⟨hmem, hc, hm⟩, rfl⟩

theorem mem_regexStreamScan_none {rec : RecordSegmentReader} {re : ChromaRegex}
    {o : ℕ} :
    o ∈ regexStreamScan rec re none
      ↔ ∃ d, (o, d) ∈ rec.records ∧ isSomeAnd d re.is_match = true := by
  simp only [regexStreamScan, RecordSegmentReader.get_data_stream,
    List.mem_toFinset, List.mem_map, List.mem_filter, Option.isNone_none,
    isSomeAnd, Bool.true_or, Bool.true_and]
  constructor
  · rintro ⟨⟨x, d⟩, ⟨hmem, hm⟩, rfl⟩
    exact ⟨d, hmem, hm⟩
  · rintro ⟨d, hmem, hm⟩
    exact ⟨(o, d), ⟨hmem, hm⟩, rfl⟩

/-- C4: the segment-variant regex algorithm (with both the n-gram index and
the record reader present): the regex is exact iff the HIR has no look-around
assertions and the index can match the literal expression exactly; if exact,
the candidate bitmap is returned, or the full offset stream when the index
reports no filter is possible; otherwise a present candidate set whose size
is strictly below one-tenth (integer division, as in the source) of the
record count is verified by point lookups of each candidate, and any other
case by streaming all records, testing each document and intersecting with
the candidate set when present. -/
theorem regex_compact_algorithm (fti : FullTextIndexReader)
    (rec : RecordSegmentReader) (re : ChromaRegex) :
    (∀ b : Bitmap,
      (re.look_set_is_empty && fti.can_match_exactly re) = true →
      fti.match_literal_expression re = some b →
      filterByDocumentRegexCompact fti rec re = b)
    ∧ ((re.look_set_is_empty && fti.can_match_exactly re) = true →
      fti.match_literal_expression re = none →
      filterByDocumentRegexCompact fti rec re = rec.get_offset_stream.toFinset)
    ∧ (∀ b : Bitmap,
      (re.look_set_is_empty && fti.can_match_exactly re) = false →
      fti.match_literal_expression re = some b →
      b.card < rec.count / 10 →
      filterByDocumentRegexCompact fti rec re = regexPointLookup rec re b
      ∧ (∀ o : ℕ, o ∈ filterByDocumentRegexCompact fti rec re
          ↔ o ∈ b ∧ isSomeAnd (rec.get_data_for_offset_id o)
              (fun rcd => isSomeAnd rcd re.is_match) = true))
    ∧ (∀ b : Bitmap,
      (re.look_set_is_empty && fti.can_match_exactly re) = false →
      fti.match_literal_expression re = some b →
      ¬ b.card < rec.count / 10 →
      filterByDocumentRegexCompact fti rec re = regexStreamScan rec re (some b)
      ∧ (∀ o : ℕ, o ∈ filterByDocumentRegexCompact fti rec re
          ↔ ∃ d, (o, d) ∈ rec.records ∧ o ∈ b ∧ isSomeAnd d re.is_match = true))
    ∧ ((re.look_set_is_empty && fti.can_match_exactly re) = false →
      fti.match_literal_expression re = none →
      filterByDocumentRegexCompact fti rec re = regexStreamScan rec re none
      ∧ (∀ o : ℕ, o ∈ filterByDocumentRegexCompact fti rec re
          ↔ ∃ d, (o, d) ∈ rec.records ∧ isSomeAnd d re.is_match = true)) := by
  refine ⟨?_, ?_, ?_, ?_, ?_⟩
  · intro b hex happ
    simp [filterByDocumentRegexCompact, hex, happ]
  · intro hex happ
    simp [filterByDocumentRegexCompact, hex, happ]
  · intro b hex happ hcard
    have hres : filterByDocumentRegexCompact fti rec re = regexPointLookup rec re b := by
      simp [filterByDocumentRegexCompact, hex, happ, hcard]
    exact ⟨hres, fun o => by rw [hres]; exact mem_regexPointLookup⟩
  · intro b hex happ hcard
    have hres : filterByDocumentRegexCompact fti rec re
        = regexStreamScan rec re (some b) := by
      simp [filterByDocumentRegexCompact, hex, happ, hcard]
    exact ⟨hres, fun o => by rw [hres]; exact mem_regexStreamScan_some⟩
  · intro hex happ
    have hres : filterByDocumentRegexCompact fti rec re
        = regexStreamScan rec re none := by
      simp [filterByDocumentRegexCompact, hex, happ]
    exact ⟨hres, fun o => by rw [hres]; exact mem_regexStreamScan_none⟩

/-- An exactly-matchable index whose candidate set is `{1}`. -/
def c4FtiExact : FullTextIndexReader :=
  { search := fun _ => ∅
    match_literal_expression := fun _ => some {1}
    can_match_exactly := fun _ => true }

/-- An exactly-matchable index reporting "no filter possible". -/
def c4FtiExactNone : FullTextIndexReader :=
  { search := fun _ => ∅
    match_literal_expression := fun _ => none
    can_match_exactly := fun _ => true }

/-- A non-exact index whose candidate set is `{1}`. -/
def c4FtiApprox : FullTextIndexReader :=
  { search := fun _ => ∅
    match_literal_expression := fun _ => some {1}
    can_match_exactly := fun _ => false }

/-- A non-exact index reporting "no filter possible". -/
def c4FtiNone : FullTextIndexReader :=
  { search := fun _ => ∅
    match_literal_expression := fun _ => none
    can_match_exactly := fun _ => false }

/-- A record segment with 20 records, all sharing document `d`. -/
def c4Rec : RecordSegmentReader :=
  { records := (List.range 20).map (fun i => (i, some "d"))
    user_id_to_offset := fun _ => none }

/-- Witness for C4: each of the five branches of the algorithm reached at a
concrete configuration. -/
theorem regex_compact_algorithm_witness :
    filterByDocumentRegexCompact c4FtiExact sampleRecordReader trivialRegex = {1}
    ∧ filterByDocumentRegexCompact c4FtiExactNone sampleRecordReader trivialRegex
        = sampleRecordReader.get_offset_stream.toFinset
    ∧ filterByDocumentRegexCompact c4FtiApprox c4Rec trivialRegex
        = regexPointLookup c4Rec trivialRegex {1}
    ∧ filterByDocumentRegexCompact c4FtiApprox sampleRecordReader trivialRegex
        = regexStreamScan sampleRecordReader trivialRegex (some {1})
    ∧ filterByDocumentRegexCompact c4FtiNone sampleRecordReader trivialRegex
        = regexStreamScan sampleRecordReader trivialRegex none :=
  ⟨(regex_compact_algorithm c4FtiExact sampleRecordReader trivialRegex).1
      {1} rfl rfl,
    (regex_compact_algorithm c4FtiExactNone sampleRecordReader trivialRegex).2.1
      rfl rfl,
    ((regex_compact_algorithm c4FtiApprox c4Rec trivialRegex).2.2.1
      {1} rfl rfl (by decide)).1,
    ((regex_compact_algorithm c4FtiApprox sampleRecordReader trivialRegex).2.2.2.1
      {1} rfl rfl (by decide)).1,
    ((regex_compact_algorithm c4FtiNone sampleRecordReader trivialRegex).2.2.2.2
      rfl rfl).1⟩

/-- Materialized logs distinguishing `Int 0` from `Int 2^32` on the log side. -/
def c10Logs : List MaterializedLogEntry :=
  [{ operation := .AddNew, offset_id := 1, user_id := "a",
     metadata := [("k", .Int 0)], document := none },
   { operation := .AddNew, offset_id := 2, user_id := "b",
     metadata := [("k", .Int (2 ^ 32))], document := none }]

/-- C10: the segment variant narrows the query value before consulting the
typed column index: `Int(i)` is queried at the wrapping cast `i mod 2^32`
(this holds for every `i`, in particular negative ones), `Float(f)` is
queried at its `f32` narrowing; hence the segment side cannot distinguish
integers congruent modulo `2^32`, while the log variant compares the exact
64-bit values and does distinguish them, so the two variants can return
different offset sets for the same predicate. -/
theorem segment_narrowing_divergence (seg : MetadataSegmentReader)
    (rec? : Option RecordSegmentReader) (key : String) (op : PrimitiveOperator)
    (i : ℤ) (f : ℚ) :
    MetadataProvider.filter_by_metadata (.CompactData seg rec?) key (.Int i) op
        = queryIndex seg.u32_metadata_index_reader key (i % (2 ^ 32 : ℤ)).toNat op
    ∧ MetadataProvider.filter_by_metadata (.CompactData seg rec?) key (.Float f) op
        = queryIndex seg.f32_metadata_index_reader key (seg.narrow_f32 f) op
    ∧ MetadataProvider.filter_by_metadata (.CompactData seg rec?) key (.Int i) op
        = MetadataProvider.filter_by_metadata (.CompactData seg rec?) key
            (.Int (i + 2 ^ 32)) op
    ∧ MetadataProvider.filter_by_metadata
          (.Log (MetadataLogReader.create c10Logs)) "k" (.Int 0) .Equal
        ≠ MetadataProvider.filter_by_metadata
            (.Log (MetadataLogReader.create c10Logs)) "k" (.Int (2 ^ 32)) .Equal := by
  refine ⟨rfl, rfl, ?_, by decide⟩
  have hmod : (i + 2 ^ 32) % (2 ^ 32 : ℤ) = i % (2 ^ 32 : ℤ) := by omega
  simp only [MetadataProvider.filter_by_metadata, hmod]

end ChromaFilter
